import Mathlib

/-!
Verification of `src/diagnose.py` (dazzlejc/ip-checker).

The script is a read-only diagnostic reporter: it probes a fixed list of
artifact paths, lists an output directory, scans a log file with five fixed
regular expressions plus a residential-IP extraction pattern, and ends with
static remediation text.  We embed it shallowly:

* the filesystem state the script reads is a record `FSState`;
* Python `re.findall` is embedded by a small backtracking regex engine
  (`Regex`) covering exactly the constructs the six patterns use:
  literal characters, the dot class (which does not match a newline,
  as `re.DOTALL` is not set), the `\d` class, concatenation, alternation,
  greedy `*` / `+` and lazy `*?` over single-character classes, and one
  capture group.  Match priority (leftmost, greedy-longest-first,
  lazy-shortest-first, left alternative first) follows Python's engine;
* each `print` call of the script contributes one element to the output
  list, the element being the exact string printed;
* every probing step threads the filesystem state unchanged, reflecting
  that the script only ever calls read APIs (`Path.exists`, `Path.stat`,
  `Path.glob`, `open(..., 'r')`).
-/

/-- Character classes occurring in the six patterns: `.` (any character
except newline, since `re.DOTALL` is unset) and `\d`. -/
inductive CharCls where
  | anyNoNL : CharCls
  | digit : CharCls
deriving DecidableEq, Repr

/-- Whether a character belongs to a class, Python `re` semantics. -/
def CharCls.matches : CharCls → Char → Bool
  | .anyNoNL, c => c ≠ '\n'
  | .digit, c => c.isDigit

/-- Abstract syntax of the regex fragment used by `diagnose.py`:
literals, the two classes, concatenation, alternation, greedy star,
lazy star and greedy plus over a single-character class, and a capture
group. -/
inductive Regex where
  | eps : Regex
  | lit : Char → Regex
  | cls : CharCls → Regex
  | seq : Regex → Regex → Regex
  | alt : Regex → Regex → Regex
  | starG : CharCls → Regex
  | starL : CharCls → Regex
  | plusG : CharCls → Regex
  | group : Regex → Regex
deriving DecidableEq, Repr

/-- The literal regex matching a string character by character. -/
def Regex.ofString (s : String) : Regex :=
  s.data.foldr (fun c r => Regex.seq (Regex.lit c) r) Regex.eps

/-- Suffixes remaining after the greedy star of a class consumes 0 or more
characters, in backtracking priority order (most consumed first). -/
def greedySuffixes (k : CharCls) : List Char → List (List Char)
  | [] => [[]]
  | c :: cs =>
    if k.matches c then greedySuffixes k cs ++ [c :: cs] else [c :: cs]

/-- Suffixes remaining after the lazy star of a class consumes 0 or more
characters, in backtracking priority order (least consumed first). -/
def lazySuffixes (k : CharCls) : List Char → List (List Char)
  | [] => [[]]
  | c :: cs =>
    if k.matches c then (c :: cs) :: lazySuffixes k cs else [c :: cs]

/-- Backtracking matcher.  `r.runOn s` is the list of all outcomes of
matching `r` anchored at the start of `s`, in the priority order of
Python's engine; an outcome is the remaining suffix paired with the text
of the capture group, if one was filled. -/
def Regex.runOn : Regex → List Char → List (List Char × Option (List Char))
  | .eps, s => [(s, none)]
  | .lit c, s =>
    match s with
    | [] => []
    | x :: xs => if x = c then [(xs, none)] else []
  | .cls k, s =>
    match s with
    | [] => []
    | x :: xs => if k.matches x then [(xs, none)] else []
  | .seq a b, s =>
    (a.runOn s).flatMap (fun p =>
      (b.runOn p.1).map (fun q =>
        (q.1, match q.2 with | some t => some t | none => p.2)))
  | .alt a b, s => a.runOn s ++ b.runOn s
  | .starG k, s => (greedySuffixes k s).map (fun s' => (s', none))
  | .starL k, s => (lazySuffixes k s).map (fun s' => (s', none))
  | .plusG k, s =>
    match s with
    | [] => []
    | x :: xs =>
      if k.matches x then (greedySuffixes k xs).map (fun s' => (s', none)) else []
  | .group r, s =>
    (r.runOn s).map (fun p => (p.1, some (s.take (s.length - p.1.length))))

/-- One step of `re.findall`'s scan: the leftmost-highest-priority match
anchored at the start of `s`, or `none`. -/
def Regex.firstMatch (r : Regex) (s : List Char) :
    Option (List Char × Option (List Char)) :=
  (r.runOn s).head?

/-- The scan of `re.findall`, fuelled (any fuel `≥ s.length + 1` gives the
true result): try a match at the current position; on success record the
group text if the pattern has a group, else the whole match, and resume
after the match (one character further if the match was empty); on failure
slide one character. -/
def findallAux (r : Regex) : List Char → Nat → List (List Char)
  | _, 0 => []
  | s, fuel + 1 =>
    match r.firstMatch s with
    | some (s', cap) =>
      let consumed := s.length - s'.length
      let res := match cap with
        | some t => t
        | none => s.take consumed
      if consumed = 0 then
        match s with
        | [] => [res]
        | _ :: xs => res :: findallAux r xs fuel
      else res :: findallAux r s' fuel
    | none =>
      match s with
      | [] => []
      | _ :: xs => findallAux r xs fuel

/-- Embedding of Python `re.findall(pattern, content)` for the patterns of
`diagnose.py`: the list of non-overlapping matches, the capture-group text
when the pattern has a group, the whole match text otherwise. -/
def findall (r : Regex) (s : List Char) : List (List Char) :=
  findallAux r s (s.length + 1)

/-- Pattern `🏠 发现.*?个住宅IP` (label `住宅IP发现`). -/
def foundRegex : Regex :=
  .seq (.ofString "🏠 发现") (.seq (.starL .anyNoNL) (.ofString "个住宅IP"))

/-- Pattern `💾 已写入.*?个住宅IP` (label `文件写入`). -/
def writtenRegex : Regex :=
  .seq (.ofString "💾 已写入") (.seq (.starL .anyNoNL) (.ofString "个住宅IP"))

/-- Pattern `🗑️ 已删除.*?住宅` (label `文件删除`). -/
def deletedRegex : Regex :=
  .seq (.ofString "🗑️ 已删除") (.seq (.starL .anyNoNL) (.ofString "住宅"))

/-- Pattern `GeoIP.*未加载|数据库.*未加载` (label `GeoIP错误`). -/
def geoipRegex : Regex :=
  .alt (.seq (.ofString "GeoIP") (.seq (.starG .anyNoNL) (.ofString "未加载")))
    (.seq (.ofString "数据库") (.seq (.starG .anyNoNL) (.ofString "未加载")))

/-- Pattern `国家代码.*查询` (label `国家代码`). -/
def countryRegex : Regex :=
  .seq (.ofString "国家代码") (.seq (.starG .anyNoNL) (.ofString "查询"))

/-- The IPv4-shaped capture group `(\d+\.\d+\.\d+\.\d+)`. -/
def ipGroup : Regex :=
  .group (.seq (.plusG .digit) (.seq (.lit '.') (.seq (.plusG .digit)
    (.seq (.lit '.') (.seq (.plusG .digit) (.seq (.lit '.') (.plusG .digit)))))))

/-- Pattern `🏠 住宅IP.*?(\d+\.\d+\.\d+\.\d+)` of the residential-IP
extraction sub-step. -/
def residentialIpRegex : Regex :=
  .seq (.ofString "🏠 住宅IP") (.seq (.starL .anyNoNL) ipGroup)

/-- Decimal digits of `n` least-significant first, grouped in threes. -/
def chunk3 : List Char → List (List Char)
  | [] => []
  | a :: b :: c :: rest => [a, b, c] :: chunk3 rest
  | l => [l]

/-- Python's `{n:,}` format: decimal digits with a comma every three
digits from the right. -/
def commaFormat (n : Nat) : String :=
  String.mk (List.intercalate [','] ((chunk3 (Nat.toDigits 10 n).reverse).reverse.map List.reverse))

/-- The part of the filesystem `diagnose.py` reads, fixed paths resolved:
`artifactSize f` is the byte size of `D:/IP/IP检测/IP-validity/{f}` when that
file exists; `outputEntries` is the entry-name list yielded by
`glob("*")` on `D:/IP/IP检测/IP-validity/OUTPUT` (in enumeration order, all
entry types, hidden files included) when the directory exists;
`logContent` is the UTF-8 text of `D:/IP/IP检测/IP-validity/check_log.txt`
when that file exists. -/
structure FSState where
  artifactSize : String → Option Nat
  outputEntries : Option (List String)
  logContent : Option String

/-- `files_to_check` of `diagnose.py`. -/
def files_to_check : List String :=
  ["ip-checker-debug.exe", "GeoLite2-Country.mmdb", "config.ini"]

/-- The line printed for a present artifact: its name and its byte size
with thousands separators. -/
def presentLine (file : String) (size : Nat) : String :=
  let sz := commaFormat size
  s!"✅ {file}: 存在 ({sz} 字节)"

/-- The line printed for an absent artifact. -/
def absentLine (file : String) : String :=
  s!"❌ {file}: 不存在"

/-- The line printed for one artifact: size with thousands separators when
present, an absence line otherwise (lines 21-27 of the script). -/
def artifactLine (file : String) : Option Nat → String
  | some size => presentLine file size
  | none => absentLine file

/-- The artifact-check step (lines 15-27): one line per entry of
`files_to_check`; only read APIs are called, so the state is unchanged. -/
def checkFilesStep (fs : FSState) : FSState × List String :=
  (fs, files_to_check.map (fun file => artifactLine file (fs.artifactSize file)))

/-- The count line of the OUTPUT-directory step. -/
def countFilesLine (n : Nat) : String :=
  s!"✅ OUTPUT目录: 存在 ({n} 个文件)"

/-- The per-entry line of the OUTPUT-directory step. -/
def entryLine (name : String) : String :=
  s!"   - {name}"

/-- The OUTPUT-directory step (lines 30-37): entry count and one line per
entry when the directory exists, an absence line otherwise. -/
def outputDirStep (fs : FSState) : FSState × List String :=
  match fs.outputEntries with
  | some entries =>
    (fs, countFilesLine entries.length :: entries.map entryLine)
  | none => (fs, ["❌ OUTPUT目录: 不存在"])

/-- The label/pattern table of lines 48-54, in source order. -/
def logPatterns : List (String × Regex) :=
  [("住宅IP发现", foundRegex),
   ("文件写入", writtenRegex),
   ("文件删除", deletedRegex),
   ("GeoIP错误", geoipRegex),
   ("国家代码", countryRegex)]

/-- The count line of one pattern row. -/
def countLine (name : String) (n : Nat) : String :=
  s!"✅ {name}: 找到 {n} 条记录"

/-- The not-found line of one pattern row. -/
def notFoundLine (name : String) : String :=
  s!"❌ {name}: 未找到相关记录"

/-- The display line of one matched substring. -/
def matchLine (m : List Char) : String :=
  let mstr := String.mk m
  s!"   - {mstr}"

/-- Lines printed for one pattern row (lines 56-63): on one or more
matches the count line followed by the first at most 3 matches, otherwise
the not-found line. -/
def patternLines (name : String) (r : Regex) (content : List Char) : List String :=
  let ms := findall r content
  if ms.isEmpty then
    [notFoundLine name]
  else
    countLine name ms.length :: (ms.take 3).map matchLine

/-- Lines printed by the residential-IP extraction sub-step (lines 66-70):
a heading and the first at most 5 extracted IPs when any exist, nothing
otherwise. -/
def residentialLines (content : List Char) : List String :=
  let ms := findall residentialIpRegex content
  if ms.isEmpty then []
  else
    "\n🏠 发现的住宅IP示例:" :: (ms.take 5).map matchLine

/-- The analyze-log step (lines 40-72): when the log file exists, the
heading, the five pattern sections in table order and the residential-IP
section; when it is absent, only the absence line. -/
def logStep (fs : FSState) : FSState × List String :=
  match fs.logContent with
  | some content =>
    let cs := content.data
    (fs, "\n=== 日志分析 ===" ::
      (logPatterns.flatMap (fun row => patternLines row.1 row.2 cs) ++
        residentialLines cs))
  | none => (fs, ["❌ 日志文件不存在"])

/-- The static remediation text of lines 74-83, one element per `print`. -/
def suggestionLines : List String :=
  ["\n=== 可能的问题和解决方案 ===",
   "1. 如果GeoIP数据库未加载:",
   "   - 检查 GeoLite2-Country.mmdb 文件是否损坏",
   "   - 尝试重新下载GeoIP数据库",
   "2. 如果住宅IP文件被删除:",
   "   - 检查写入权限",
   "   - 检查磁盘空间",
   "3. 如果国家信息为空:",
   "   - 检查IPDetails字段是否正确赋值",
   "   - 验证GeoIP数据库查询结果"]

/-- The remediation step: unconditional static output. -/
def suggestionsStep (fs : FSState) : FSState × List String :=
  (fs, suggestionLines)

/-- The whole `diagnose_issues()` run: the state after the run and the
sequence of printed strings, one element per `print` call. -/
def diagnose_issues (fs : FSState) : FSState × List String :=
  let s1 := checkFilesStep fs
  let s2 := outputDirStep s1.1
  let s3 := logStep s2.1
  let s4 := suggestionsStep s3.1
  (s4.1, "=== IP检测工具问题诊断 ===\n" :: (s1.2 ++ s2.2 ++ s3.2 ++ s4.2))

/-! ### Lemmas about the program steps -/

/-- The artifact step only reads. -/
theorem checkFilesStep_state (fs : FSState) : (checkFilesStep fs).1 = fs := rfl

/-- The directory step only reads. -/
theorem outputDirStep_state (fs : FSState) : (outputDirStep fs).1 = fs := by
  cases h : fs.outputEntries <;> simp [outputDirStep, h]

/-- The log step only reads. -/
theorem logStep_state (fs : FSState) : (logStep fs).1 = fs := by
  cases h : fs.logContent <;> simp [logStep, h]

/-- Every step of the run leaves the filesystem state unchanged. -/
theorem diagnose_state_eq (fs : FSState) : (diagnose_issues fs).1 = fs := by
  simp [diagnose_issues, checkFilesStep_state, outputDirStep_state, logStep_state,
    suggestionsStep]

/-! ### Lemmas about the matcher -/

/-- The whole input is always one of the greedy-star outcomes. -/
theorem self_mem_greedySuffixes (k : CharCls) (s : List Char) :
    s ∈ greedySuffixes k s := by
  cases s with
  | nil => simp [greedySuffixes]
  | cons c cs =>
    by_cases h : k.matches c <;> simp [greedySuffixes, h]

/-- The whole input is always one of the lazy-star outcomes. -/
theorem self_mem_lazySuffixes (k : CharCls) (s : List Char) :
    s ∈ lazySuffixes k s := by
  cases s with
  | nil => simp [lazySuffixes]
  | cons c cs =>
    by_cases h : k.matches c <;> simp [lazySuffixes, h]

/-- Extending the input on the right preserves greedy-star outcomes. -/
theorem mem_greedySuffixes_append {k : CharCls} {s p : List Char} (t : List Char)
    (h : p ∈ greedySuffixes k s) : p ++ t ∈ greedySuffixes k (s ++ t) := by
  induction s with
  | nil =>
    simp [greedySuffixes] at h
    subst h
    simpa using self_mem_greedySuffixes k t
  | cons c cs ih =>
    by_cases hm : k.matches c
    · simp only [greedySuffixes, hm, if_pos, List.mem_append, List.mem_singleton] at h
      rcases h with h | h
      · simp only [List.cons_append, greedySuffixes, hm, if_pos, List.mem_append]
        exact Or.inl (ih h)
      · subst h
        simp only [List.cons_append, greedySuffixes, hm, if_pos, List.mem_append,
          List.mem_singleton]
        exact Or.inr rfl
    · simp only [greedySuffixes, hm, if_neg, Bool.false_eq_true, not_false_iff,
        List.mem_singleton] at h
      subst h
      simp [List.cons_append, greedySuffixes, hm]

/-- Extending the input on the right preserves lazy-star outcomes. -/
theorem mem_lazySuffixes_append {k : CharCls} {s p : List Char} (t : List Char)
    (h : p ∈ lazySuffixes k s) : p ++ t ∈ lazySuffixes k (s ++ t) := by
  induction s with
  | nil =>
    simp [lazySuffixes] at h
    subst h
    simpa using self_mem_lazySuffixes k t
  | cons c cs ih =>
    by_cases hm : k.matches c
    · simp only [lazySuffixes, hm, if_pos, List.mem_cons] at h
      rcases h with h | h
      · subst h
        simp [List.cons_append, lazySuffixes, hm]
      · simp only [List.cons_append, lazySuffixes, hm, if_pos, List.mem_cons]
        exact Or.inr (ih h)
    · simp only [lazySuffixes, hm, if_neg, Bool.false_eq_true, not_false_iff,
        List.mem_singleton] at h
      subst h
      simp [List.cons_append, lazySuffixes, hm]

/-- A match outcome on `s` survives extending the input to `s ++ t` (the
capture may change, the remaining suffix is extended by `t`). -/
theorem runOn_append {r : Regex} :
    ∀ {s p : List Char} {c : Option (List Char)}, (p, c) ∈ r.runOn s →
      ∀ t, ∃ c', (p ++ t, c') ∈ r.runOn (s ++ t) := by
  induction r with
  | eps =>
    intro s p c h t
    simp [Regex.runOn] at h
    obtain ⟨hp, _⟩ := h
    subst hp
    exact ⟨none, by simp [Regex.runOn]⟩
  | lit ch =>
    intro s p c h t
    cases s with
    | nil => simp [Regex.runOn] at h
    | cons x xs =>
      by_cases hx : x = ch
      · simp [Regex.runOn, hx] at h
        obtain ⟨hp, _⟩ := h
        subst hp
        exact ⟨none, by simp [Regex.runOn, hx]⟩
      · simp [Regex.runOn, hx] at h
  | cls k =>
    intro s p c h t
    cases s with
    | nil => simp [Regex.runOn] at h
    | cons x xs =>
      by_cases hx : k.matches x
      · simp [Regex.runOn, hx] at h
        obtain ⟨hp, _⟩ := h
        subst hp
        exact ⟨none, by simp [Regex.runOn, hx]⟩
      · simp [Regex.runOn, hx] at h
  | seq a b iha ihb =>
    intro s p c h t
    simp only [Regex.runOn, List.mem_flatMap, List.mem_map] at h
    obtain ⟨⟨p1, c1⟩, h1, ⟨p2, c2⟩, h2, hpc⟩ := h
    have hp : p2 = p := by simpa using congrArg Prod.fst hpc
    subst hp
    obtain ⟨c1', h1'⟩ := iha h1 t
    obtain ⟨c2', h2'⟩ := ihb h2 t
    cases c2' with
    | some u =>
      refine ⟨some u, ?_⟩
      simp only [Regex.runOn, List.mem_flatMap, List.mem_map]
      exact ⟨(p1 ++ t, c1'), h1', ⟨(p2 ++ t, some u), h2', rfl⟩⟩
    | none =>
      refine ⟨c1', ?_⟩
      simp only [Regex.runOn, List.mem_flatMap, List.mem_map]
      exact ⟨(p1 ++ t, c1'), h1', ⟨(p2 ++ t, none), h2', rfl⟩⟩
  | alt a b iha ihb =>
    intro s p c h t
    simp only [Regex.runOn, List.mem_append] at h
    rcases h with h | h
    · obtain ⟨c', h'⟩ := iha h t
      exact ⟨c', by simp only [Regex.runOn, List.mem_append]; exact Or.inl h'⟩
    · obtain ⟨c', h'⟩ := ihb h t
      exact ⟨c', by simp only [Regex.runOn, List.mem_append]; exact Or.inr h'⟩
  | starG k =>
    intro s p c h t
    simp only [Regex.runOn, List.mem_map] at h
    obtain ⟨p', hp', heq⟩ := h
    obtain ⟨hp, _⟩ := Prod.mk.injEq _ _ _ _ ▸ heq
    subst hp
    exact ⟨none, by
      simp only [Regex.runOn, List.mem_map]
      exact ⟨p' ++ t, mem_greedySuffixes_append t hp', rfl⟩⟩
  | starL k =>
    intro s p c h t
    simp only [Regex.runOn, List.mem_map] at h
    obtain ⟨p', hp', heq⟩ := h
    obtain ⟨hp, _⟩ := Prod.mk.injEq _ _ _ _ ▸ heq
    subst hp
    exact ⟨none, by
      simp only [Regex.runOn, List.mem_map]
      exact ⟨p' ++ t, mem_lazySuffixes_append t hp', rfl⟩⟩
  | plusG k =>
    intro s p c h t
    cases s with
    | nil => simp [Regex.runOn] at h
    | cons x xs =>
      by_cases hx : k.matches x
      · simp only [Regex.runOn, hx, if_pos, List.mem_map] at h
        obtain ⟨p', hp', heq⟩ := h
        obtain ⟨hp, _⟩ := Prod.mk.injEq _ _ _ _ ▸ heq
        subst hp
        refine ⟨none, ?_⟩
        simp only [List.cons_append, Regex.runOn, hx, if_pos, List.mem_map]
        exact ⟨p' ++ t, mem_greedySuffixes_append t hp', rfl⟩
      · simp [Regex.runOn, hx] at h
  | group r ih =>
    intro s p c h t
    simp only [Regex.runOn, List.mem_map] at h
    obtain ⟨⟨p1, c1⟩, h1, heq⟩ := h
    obtain ⟨hp, _⟩ := Prod.mk.injEq _ _ _ _ ▸ heq
    subst hp
    obtain ⟨c1', h1'⟩ := ih h1 t
    refine ⟨some ((s ++ t).take ((s ++ t).length - (p1 ++ t).length)), ?_⟩
    simp only [Regex.runOn, List.mem_map]
    exact ⟨(p1 ++ t, c1'), h1', rfl⟩

/-- If the pattern matches at the start of `s`, it still does after
appending `t`. -/
theorem runOn_ne_nil_append {r : Regex} {s : List Char} (t : List Char)
    (h : r.runOn s ≠ []) : r.runOn (s ++ t) ≠ [] := by
  obtain ⟨⟨p, c⟩, hm⟩ := List.exists_mem_of_ne_nil _ h
  obtain ⟨c', hm'⟩ := runOn_append hm t
  exact List.ne_nil_of_mem hm'

/-- When the pattern matches at the current scan position, the scan
records something: its result is nonempty. -/
theorem findallAux_ne_nil_of_firstMatch {r : Regex} {s s' : List Char}
    {cap : Option (List Char)} {f : Nat} (hh : r.firstMatch s = some (s', cap)) :
    findallAux r s (f + 1) ≠ [] := by
  simp only [findallAux, hh]
  split
  · cases s <;> simp
  · simp

/-- If the scan is started anywhere to the left of a position where the
pattern matches, with enough fuel to reach it, it finds something. -/
theorem findallAux_ne_nil {r : Regex} (v : List Char) (hv : r.runOn v ≠ []) :
    ∀ (u : List Char) (fuel : Nat), u.length < fuel →
      findallAux r (u ++ v) fuel ≠ [] := by
  intro u
  induction u with
  | nil =>
    intro fuel hf
    cases fuel with
    | zero => omega
    | succ f =>
      simp only [List.nil_append]
      cases hh : r.firstMatch v with
      | none =>
        have hh' : (r.runOn v).head? = none := hh
        exact absurd (List.head?_eq_none_iff.mp hh') hv
      | some pc =>
        obtain ⟨s', cap⟩ := pc
        exact findallAux_ne_nil_of_firstMatch hh
  | cons x u' ih =>
    intro fuel hf
    cases fuel with
    | zero => omega
    | succ f =>
      simp only [List.cons_append]
      cases hh : r.firstMatch (x :: (u' ++ v)) with
      | none =>
        simp only [findallAux, hh]
        exact ih f (by simp at hf ⊢; omega)
      | some pc =>
        obtain ⟨s', cap⟩ := pc
        exact findallAux_ne_nil_of_firstMatch hh

/-- If the pattern matches somewhere in `content` (anchored at the start of
the suffix `v`), `re.findall` returns at least one match. -/
theorem findall_ne_nil_of_split {r : Regex} {content u v : List Char}
    (hs : content = u ++ v) (hv : r.runOn v ≠ []) : findall r content ≠ [] := by
  subst hs
  exact findallAux_ne_nil v hv u ((u ++ v).length + 1)
    (by simp [List.length_append]; omega)

/-- The count of non-overlapping occurrences of a pattern in a text,
fuelled like the scan: scanning left to right, an occurrence is counted
whenever the pattern matches at the current position, and the scan resumes
immediately after the counted occurrence (one character further when it
was empty). -/
def occCountAux (r : Regex) : List Char → Nat → Nat
  | _, 0 => 0
  | s, fuel + 1 =>
    match r.firstMatch s with
    | some (s', _) =>
      if s.length - s'.length = 0 then
        match s with
        | [] => 1
        | _ :: xs => 1 + occCountAux r xs fuel
      else 1 + occCountAux r s' fuel
    | none =>
      match s with
      | [] => 0
      | _ :: xs => occCountAux r xs fuel

/-- The count of non-overlapping occurrences of `r` in `s`. -/
def occCount (r : Regex) (s : List Char) : Nat :=
  occCountAux r s (s.length + 1)

/-- The list `re.findall` returns has exactly one element per
non-overlapping occurrence of the pattern. -/
theorem findallAux_length (r : Regex) :
    ∀ (fuel : Nat) (s : List Char),
      (findallAux r s fuel).length = occCountAux r s fuel := by
  intro fuel
  induction fuel with
  | zero => intro s; simp [findallAux, occCountAux]
  | succ f ih =>
    intro s
    cases hh : r.firstMatch s with
    | none =>
      simp only [findallAux, occCountAux, hh]
      cases s with
      | nil => simp
      | cons x xs => exact ih xs
    | some pc =>
      obtain ⟨s', cap⟩ := pc
      simp only [findallAux, occCountAux, hh]
      by_cases hc : s.length - s'.length = 0
      · simp only [if_pos hc]
        cases s with
        | nil => simp
        | cons x xs => simp [ih xs, Nat.add_comm]
      · simp only [if_neg hc]
        simp [ih s', Nat.add_comm]

/-- Fuel-free version: the length of `findall` equals the occurrence
count. -/
theorem findall_length_eq_occCount (r : Regex) (s : List Char) :
    (findall r s).length = occCount r s :=
  findallAux_length r (s.length + 1) s

/-! ### Matches stay within one line -/

/-- A pattern none of whose literals is a newline (the two character
classes never match a newline either). -/
def Regex.noNewline : Regex → Bool
  | .eps => true
  | .lit c => c ≠ '\n'
  | .cls _ => true
  | .seq a b => a.noNewline && b.noNewline
  | .alt a b => a.noNewline && b.noNewline
  | .starG _ => true
  | .starL _ => true
  | .plusG _ => true
  | .group r => r.noNewline

/-- Neither class matches a newline. -/
theorem CharCls.matches_ne_newline {k : CharCls} {c : Char}
    (h : k.matches c = true) : c ≠ '\n' := by
  cases k with
  | anyNoNL => simpa [CharCls.matches] using h
  | digit =>
    intro hc
    subst hc
    simp [CharCls.matches] at h

/-- A greedy-star outcome is reached by consuming a prefix of characters
all in the class. -/
theorem greedySuffixes_eq_append {k : CharCls} :
    ∀ {s p : List Char}, p ∈ greedySuffixes k s →
      ∃ q, s = q ++ p ∧ ∀ c ∈ q, k.matches c := by
  intro s
  induction s with
  | nil =>
    intro p h
    simp [greedySuffixes] at h
    subst h
    exact ⟨[], rfl, by simp⟩
  | cons c cs ih =>
    intro p h
    by_cases hm : k.matches c
    · simp only [greedySuffixes, hm, if_pos, List.mem_append, List.mem_singleton] at h
      rcases h with h | h
      · obtain ⟨q, hq, hq'⟩ := ih h
        subst hq
        exact ⟨c :: q, rfl, by
          intro d hd
          rcases List.mem_cons.mp hd with hd | hd
          · subst hd; exact hm
          · exact hq' d hd⟩
      · subst h
        exact ⟨[], rfl, by simp⟩
    · simp only [greedySuffixes, hm, if_neg, Bool.false_eq_true, not_false_iff,
        List.mem_singleton] at h
      subst h
      exact ⟨[], rfl, by simp⟩

/-- A lazy-star outcome is reached by consuming a prefix of characters
all in the class. -/
theorem lazySuffixes_eq_append {k : CharCls} :
    ∀ {s p : List Char}, p ∈ lazySuffixes k s →
      ∃ q, s = q ++ p ∧ ∀ c ∈ q, k.matches c := by
  intro s
  induction s with
  | nil =>
    intro p h
    simp [lazySuffixes] at h
    subst h
    exact ⟨[], rfl, by simp⟩
  | cons c cs ih =>
    intro p h
    by_cases hm : k.matches c
    · simp only [lazySuffixes, hm, if_pos, List.mem_cons] at h
      rcases h with h | h
      · subst h
        exact ⟨[], rfl, by simp⟩
      · obtain ⟨q, hq, hq'⟩ := ih h
        subst hq
        exact ⟨c :: q, rfl, by
          intro d hd
          rcases List.mem_cons.mp hd with hd | hd
          · subst hd; exact hm
          · exact hq' d hd⟩
    · simp only [lazySuffixes, hm, if_neg, Bool.false_eq_true, not_false_iff,
        List.mem_singleton] at h
      subst h
      exact ⟨[], rfl, by simp⟩

/-- Taking what an appended text consumed recovers the consumed prefix. -/
theorem take_length_sub {q p : List Char} :
    (q ++ p).take ((q ++ p).length - p.length) = q := by
  have h : (q ++ p).length - p.length = q.length := by
    simp [List.length_append]
  rw [h]
  exact List.take_left q p

/-- Every outcome of a newline-free pattern consumes a newline-free
prefix, and its capture (if any) is newline-free as well. -/
theorem runOn_noNewline {r : Regex} (hr : r.noNewline = true) :
    ∀ {s p : List Char} {c : Option (List Char)}, (p, c) ∈ r.runOn s →
      ∃ q, s = q ++ p ∧ (∀ ch ∈ q, ch ≠ '\n') ∧
        (∀ u, c = some u → ∀ ch ∈ u, ch ≠ '\n') := by
  induction r with
  | eps =>
    intro s p c h
    simp [Regex.runOn] at h
    obtain ⟨hp, hc⟩ := h
    subst hp
    subst hc
    exact ⟨[], rfl, by simp, by simp⟩
  | lit ch =>
    intro s p c h
    cases s with
    | nil => simp [Regex.runOn] at h
    | cons x xs =>
      by_cases hx : x = ch
      · subst hx
        simp [Regex.runOn] at h
        obtain ⟨hp, hc⟩ := h
        subst hp
        subst hc
        refine ⟨[x], rfl, ?_, by simp⟩
        intro d hd
        have hd' : d = x := by simpa using hd
        subst hd'
        simpa [Regex.noNewline] using hr
      · simp [Regex.runOn, hx] at h
  | cls k =>
    intro s p c h
    cases s with
    | nil => simp [Regex.runOn] at h
    | cons x xs =>
      by_cases hx : k.matches x
      · simp [Regex.runOn, hx] at h
        obtain ⟨hp, hc⟩ := h
        subst hp
        subst hc
        refine ⟨[x], rfl, ?_, by simp⟩
        intro d hd
        have hd' : d = x := by simpa using hd
        subst hd'
        exact CharCls.matches_ne_newline hx
      · simp [Regex.runOn, hx] at h
  | seq a b iha ihb =>
    intro s p c h
    have hra : a.noNewline = true := by
      have := hr
      simp [Regex.noNewline, Bool.and_eq_true] at this
      exact this.1
    have hrb : b.noNewline = true := by
      have := hr
      simp [Regex.noNewline, Bool.and_eq_true] at this
      exact this.2
    simp only [Regex.runOn, List.mem_flatMap, List.mem_map] at h
    obtain ⟨⟨p1, c1⟩, h1, ⟨p2, c2⟩, h2, hpc⟩ := h
    injection hpc with hp hc
    subst hp
    obtain ⟨q1, hq1, hq1n, hc1n⟩ := iha hra h1
    obtain ⟨q2, hq2, hq2n, hc2n⟩ := ihb hrb h2
    subst hq1
    subst hq2
    refine ⟨q1 ++ q2, by simp, ?_, ?_⟩
    · intro d hd
      rcases List.mem_append.mp hd with hd | hd
      · exact hq1n d hd
      · exact hq2n d hd
    · intro u hu ch hch
      cases c2 with
      | some u2 =>
        have hcu : some u2 = c := hc
        rw [← hcu] at hu
        have hu' : u2 = u := by simpa using hu
        subst hu'
        exact hc2n u2 rfl ch hch
      | none =>
        have hcu : c1 = c := hc
        rw [← hcu] at hu
        exact hc1n u hu ch hch
  | alt a b iha ihb =>
    intro s p c h
    have hra : a.noNewline = true := by
      have := hr
      simp [Regex.noNewline, Bool.and_eq_true] at this
      exact this.1
    have hrb : b.noNewline = true := by
      have := hr
      simp [Regex.noNewline, Bool.and_eq_true] at this
      exact this.2
    simp only [Regex.runOn, List.mem_append] at h
    rcases h with h | h
    · exact iha hra h
    · exact ihb hrb h
  | starG k =>
    intro s p c h
    simp only [Regex.runOn, List.mem_map] at h
    obtain ⟨p', hp', heq⟩ := h
    injection heq with hp hc
    subst hp
    subst hc
    obtain ⟨q, hq, hq'⟩ := greedySuffixes_eq_append hp'
    exact ⟨q, hq, fun d hd => CharCls.matches_ne_newline (hq' d hd), by simp⟩
  | starL k =>
    intro s p c h
    simp only [Regex.runOn, List.mem_map] at h
    obtain ⟨p', hp', heq⟩ := h
    injection heq with hp hc
    subst hp
    subst hc
    obtain ⟨q, hq, hq'⟩ := lazySuffixes_eq_append hp'
    exact ⟨q, hq, fun d hd => CharCls.matches_ne_newline (hq' d hd), by simp⟩
  | plusG k =>
    intro s p c h
    cases s with
    | nil => simp [Regex.runOn] at h
    | cons x xs =>
      by_cases hx : k.matches x
      · simp only [Regex.runOn, hx, if_pos, List.mem_map] at h
        obtain ⟨p', hp', heq⟩ := h
        injection heq with hp hc
        subst hp
        subst hc
        obtain ⟨q, hq, hq'⟩ := greedySuffixes_eq_append hp'
        subst hq
        refine ⟨x :: q, rfl, ?_, by simp⟩
        intro d hd
        rcases List.mem_cons.mp hd with hd | hd
        · subst hd; exact CharCls.matches_ne_newline hx
        · exact CharCls.matches_ne_newline (hq' d hd)
      · simp [Regex.runOn, hx] at h
  | group r ih =>
    intro s p c h
    have hrr : r.noNewline = true := by simpa [Regex.noNewline] using hr
    simp only [Regex.runOn, List.mem_map] at h
    obtain ⟨⟨p1, c1⟩, h1, heq⟩ := h
    injection heq with hp hc
    subst hp
    obtain ⟨q, hq, hqn, _⟩ := ih hrr h1
    refine ⟨q, hq, hqn, ?_⟩
    intro u hu ch hch
    rw [← hc] at hu
    injection hu with hu2
    subst hq
    rw [take_length_sub] at hu2
    subst hu2
    exact hqn ch hch

/-- Every element of `findall` for a newline-free pattern is free of
newlines. -/
theorem findallAux_noNewline {r : Regex} (hr : r.noNewline = true) :
    ∀ (fuel : Nat) (s m : List Char), m ∈ findallAux r s fuel →
      ∀ ch ∈ m, ch ≠ '\n' := by
  intro fuel
  induction fuel with
  | zero => intro s m h; simp [findallAux] at h
  | succ f ih =>
    intro s m h
    cases hh : r.firstMatch s with
    | none =>
      simp only [findallAux, hh] at h
      cases s with
      | nil => simp at h
      | cons x xs => exact ih xs m h
    | some pc =>
      obtain ⟨s', cap⟩ := pc
      have hmem : (s', cap) ∈ r.runOn s := by
        have hh' : (r.runOn s).head? = some (s', cap) := hh
        exact List.mem_of_mem_head? hh'
      obtain ⟨q, hq, hqn, hcapn⟩ := runOn_noNewline hr hmem
      have hres : ∀ ch ∈ (match cap with
          | some t => t
          | none => s.take (s.length - s'.length)), ch ≠ '\n' := by
        cases cap with
        | some t => exact hcapn t rfl
        | none =>
          subst hq
          rw [take_length_sub]
          exact hqn
      simp only [findallAux, hh] at h
      by_cases hc : s.length - s'.length = 0
      · rw [if_pos hc] at h
        cases s with
        | nil =>
          rw [List.mem_singleton] at h
          subst h
          exact hres
        | cons x xs =>
          rcases List.mem_cons.mp h with h | h
          · subst h; exact hres
          · exact ih xs m h
      · rw [if_neg hc] at h
        rcases List.mem_cons.mp h with h | h
        · subst h; simpa using hres
        · exact ih s' m h

/-- Fuel-free version: all reported matches of a newline-free pattern
contain no newline. -/
theorem findall_noNewline {r : Regex} (hr : r.noNewline = true)
    {s m : List Char} (h : m ∈ findall r s) : ∀ ch ∈ m, ch ≠ '\n' :=
  findallAux_noNewline hr (s.length + 1) s m h

/-! ### Concrete inputs used by the claims -/

/-- A filesystem state where nothing exists. -/
def emptyFS : FSState := ⟨fun _ => none, none, none⟩

/-- A log text containing the bare substring `已写入 5 个住宅IP`, without
the `💾 ` marker the source pattern requires. -/
def bareWrittenText : String := "已写入 5 个住宅IP"

/-- A log text containing the full marked phrase `💾 已写入 5 个住宅IP`. -/
def markedWrittenText : String := "💾 已写入 5 个住宅IP"

/-- A log with two residential-IP markers, the second later in the text. -/
def twoMarkerLog : String := "🏠 住宅IP: 203.0.113.7\n🏠 住宅IP: 198.51.100.9\n"

/-- A filesystem state whose OUTPUT directory holds two entries. -/
def sampleDirFS : FSState := ⟨fun _ => none, some ["a.txt", "b.txt"], none⟩

/-- A filesystem state where only `config.ini` exists, with 1234567 bytes. -/
def sampleArtifactFS : FSState :=
  ⟨fun f => if f = "config.ini" then some 1234567 else none, none, none⟩

/-- A filesystem state whose log exists with one written marker and one
residential IP, and no GeoIP-error phrase. -/
def sampleLogFS : FSState :=
  ⟨fun _ => none, none, some "💾 已写入 5 个住宅IP\n🏠 住宅IP: 203.0.113.7\n"⟩

/-! ### The claims -/

/-- C1, as stated, is false: the "file written" pattern is
`💾 已写入.*?个住宅IP`, so a log consisting of the bare substring
`已写入 5 个住宅IP` (no `💾 ` marker) contains the claimed trigger text yet
produces zero matches. -/
theorem c1_counterexample :
    (∃ u v, bareWrittenText.data = u ++ "已写入 5 个住宅IP".data ++ v) ∧
    findall writtenRegex bareWrittenText.data = [] :=
  ⟨⟨[], [], by simp [bareWrittenText]⟩, by decide⟩

/-- C1 (amended): for every log content that contains the marked phrase
`💾 已写入 5 个住宅IP`, the "file written" pattern produces at least one
match, and for every log content the match count reported equals the true
count of non-overlapping occurrences of the pattern in the text. -/
theorem c1_written_count (content : String) :
    ((∃ u v, content.data = u ++ "💾 已写入 5 个住宅IP".data ++ v) →
      findall writtenRegex content.data ≠ []) ∧
    (findall writtenRegex content.data).length = occCount writtenRegex content.data := by
  constructor
  · rintro ⟨u, v, hu⟩
    have hrun : writtenRegex.runOn ("💾 已写入 5 个住宅IP".data ++ v) ≠ [] :=
      runOn_ne_nil_append v (by decide)
    exact findall_ne_nil_of_split
      (hu.trans (List.append_assoc u "💾 已写入 5 个住宅IP".data v)) hrun
  · exact findall_length_eq_occCount _ _

/-- C1 witness: the amended claim applied to the marked phrase itself. -/
theorem c1_written_count_witness :
    findall writtenRegex markedWrittenText.data ≠ [] ∧
    (findall writtenRegex markedWrittenText.data).length =
      occCount writtenRegex markedWrittenText.data :=
  ⟨(c1_written_count markedWrittenText).1 ⟨[], [], by simp [markedWrittenText]⟩,
   (c1_written_count markedWrittenText).2⟩

/-- C2: on the two-marker log the extraction yields exactly
`["203.0.113.7", "198.51.100.9"]`; in general the sub-step prints at most
the first 5 extracted IPs in first-seen order, under a heading only when
at least one match exists, and prints nothing at all on zero matches. -/
theorem c2_ip_extraction :
    findall residentialIpRegex twoMarkerLog.data =
      ["203.0.113.7".data, "198.51.100.9".data] ∧
    (∀ content : List Char,
      ((findall residentialIpRegex content).take 5).length ≤ 5 ∧
      (residentialLines content).length ≤ 6 ∧
      (findall residentialIpRegex content = [] → residentialLines content = []) ∧
      (findall residentialIpRegex content ≠ [] →
        residentialLines content =
          "\n🏠 发现的住宅IP示例:" ::
            ((findall residentialIpRegex content).take 5).map matchLine)) := by
  constructor
  · decide
  · intro content
    refine ⟨?_, ?_, ?_, ?_⟩
    · simp [List.length_take]
    · by_cases h : findall residentialIpRegex content = []
      · simp [residentialLines, h]
      · have hne : (findall residentialIpRegex content).isEmpty = false := by
          simpa [List.isEmpty_iff] using h
        simp [residentialLines, hne, List.length_take]
    · intro h
      simp [residentialLines, h]
    · intro h
      have hne : (findall residentialIpRegex content).isEmpty = false := by
        simpa [List.isEmpty_iff] using h
      simp [residentialLines, hne]

/-- C2 witness: the general part applied to the two-marker log. -/
theorem c2_ip_extraction_witness :
    residentialLines twoMarkerLog.data =
      "\n🏠 发现的住宅IP示例:" ::
        ((findall residentialIpRegex twoMarkerLog.data).take 5).map matchLine :=
  ((c2_ip_extraction.2 twoMarkerLog.data).2.2.2) (by decide)

/-- C3: for every log content, each of the 5 fixed patterns in table order
reports its count line followed by at most the first 3 matched substrings
when it has matches, and the not-found line when it has none; in
particular a content with zero GeoIP-error matches reports not-found for
that category. -/
theorem c3_pattern_loop (content : String) :
    (∀ name r, (name, r) ∈ logPatterns →
      (findall r content.data = [] →
        patternLines name r content.data = [notFoundLine name]) ∧
      (findall r content.data ≠ [] →
        patternLines name r content.data =
          countLine name (findall r content.data).length ::
            ((findall r content.data).take 3).map matchLine ∧
        ((findall r content.data).take 3).length ≤ 3)) ∧
    (∀ fs : FSState, fs.logContent = some content →
      (logStep fs).2 = "\n=== 日志分析 ===" ::
        (logPatterns.flatMap (fun row => patternLines row.1 row.2 content.data) ++
          residentialLines content.data)) ∧
    logPatterns = [("住宅IP发现", foundRegex), ("文件写入", writtenRegex),
      ("文件删除", deletedRegex), ("GeoIP错误", geoipRegex),
      ("国家代码", countryRegex)] ∧
    (∀ fs : FSState, fs.logContent = some content →
      findall geoipRegex content.data = [] →
      notFoundLine "GeoIP错误" ∈ (logStep fs).2) := by
  refine ⟨?_, ?_, rfl, ?_⟩
  · intro name r _hmem
    constructor
    · intro h
      simp [patternLines, h]
    · intro h
      have hne : (findall r content.data).isEmpty = false := by
        simpa [List.isEmpty_iff] using h
      refine ⟨by simp [patternLines, hne], ?_⟩
      simp [List.length_take]
  · intro fs hfs
    simp [logStep, hfs]
  · intro fs hfs hempty
    have h2 : (logStep fs).2 = "\n=== 日志分析 ===" ::
        (logPatterns.flatMap (fun row => patternLines row.1 row.2 content.data) ++
          residentialLines content.data) := by
      simp [logStep, hfs]
    rw [h2]
    apply List.mem_cons_of_mem
    apply List.mem_append_left
    rw [List.mem_flatMap]
    refine ⟨("GeoIP错误", geoipRegex), by simp [logPatterns], ?_⟩
    simp [patternLines, hempty]

/-- C3 witness: the loop applied to a concrete log with a written marker
and no GeoIP-error phrase. -/
theorem c3_pattern_loop_witness :
    patternLines "GeoIP错误" geoipRegex markedWrittenText.data =
      [notFoundLine "GeoIP错误"] ∧
    patternLines "文件写入" writtenRegex markedWrittenText.data =
      countLine "文件写入" (findall writtenRegex markedWrittenText.data).length ::
        ((findall writtenRegex markedWrittenText.data).take 3).map matchLine :=
  ⟨((c3_pattern_loop markedWrittenText).1 "GeoIP错误" geoipRegex
      (by simp [logPatterns])).1 (by decide),
   (((c3_pattern_loop markedWrittenText).1 "文件写入" writtenRegex
      (by simp [logPatterns])).2 (by decide)).1⟩

/-- C4: when the log file does not exist, the analyze-log step prints
exactly the absence line, and the whole run is the artifact lines, the
directory lines, that single line, and the static suggestions — no
analysis heading, no pattern or IP lines, and no failure. -/
theorem c4_missing_log (fs : FSState) (h : fs.logContent = none) :
    (logStep fs).2 = ["❌ 日志文件不存在"] ∧
    (diagnose_issues fs).2 =
      "=== IP检测工具问题诊断 ===\n" ::
        ((checkFilesStep fs).2 ++ (outputDirStep fs).2 ++
          ["❌ 日志文件不存在"] ++ suggestionLines) := by
  have hlog : (logStep fs).2 = ["❌ 日志文件不存在"] := by simp [logStep, h]
  refine ⟨hlog, ?_⟩
  simp [diagnose_issues, suggestionsStep, checkFilesStep_state, outputDirStep_state,
    hlog, List.append_assoc]

/-- C4 witness: the empty filesystem state. -/
theorem c4_missing_log_witness :
    (logStep emptyFS).2 = ["❌ 日志文件不存在"] ∧
    (diagnose_issues emptyFS).2 =
      "=== IP检测工具问题诊断 ===\n" ::
        ((checkFilesStep emptyFS).2 ++ (outputDirStep emptyFS).2 ++
          ["❌ 日志文件不存在"] ++ suggestionLines) :=
  c4_missing_log emptyFS rfl

/-- C5: when the OUTPUT directory exists with entries `es`, the step
prints the count line with exactly `es.length` and then exactly one line
per entry, in enumeration order; when it is absent it prints the absence
line. -/
theorem c5_output_dir (fs : FSState) :
    (∀ entries, fs.outputEntries = some entries →
      (outputDirStep fs).2 = countFilesLine entries.length :: entries.map entryLine ∧
      (entries.map entryLine).length = entries.length) ∧
    (fs.outputEntries = none → (outputDirStep fs).2 = ["❌ OUTPUT目录: 不存在"]) := by
  constructor
  · intro entries h
    exact ⟨by simp [outputDirStep, h], by simp⟩
  · intro h
    simp [outputDirStep, h]

/-- C5 witness: a directory with two entries. -/
theorem c5_output_dir_witness :
    (outputDirStep sampleDirFS).2 =
      countFilesLine (["a.txt", "b.txt"] : List String).length ::
        (["a.txt", "b.txt"] : List String).map entryLine ∧
    ((["a.txt", "b.txt"] : List String).map entryLine).length =
      (["a.txt", "b.txt"] : List String).length :=
  (c5_output_dir sampleDirFS).1 ["a.txt", "b.txt"] rfl

/-- C6: the artifact step prints exactly one line per expected file; a
present file is reported with its byte size in thousands-separator
format, an absent one with the absence line, no failure occurs, and each
file's line depends only on that file's own state. -/
theorem c6_artifact_check (fs : FSState) :
    (checkFilesStep fs).2 =
      files_to_check.map (fun f => artifactLine f (fs.artifactSize f)) ∧
    (checkFilesStep fs).2.length = 3 ∧
    (∀ f size, fs.artifactSize f = some size →
      artifactLine f (fs.artifactSize f) = presentLine f size) ∧
    (∀ f, fs.artifactSize f = none →
      artifactLine f (fs.artifactSize f) = absentLine f) ∧
    (∀ fs' : FSState, ∀ f, fs.artifactSize f = fs'.artifactSize f →
      artifactLine f (fs.artifactSize f) = artifactLine f (fs'.artifactSize f)) := by
  refine ⟨rfl, rfl, ?_, ?_, ?_⟩
  · intro f size h
    rw [h]
    rfl
  · intro f h
    rw [h]
    rfl
  · intro fs' f h
    rw [h]

/-- C6 witness: one present file with size 1234567 (formatted
`1,234,567`), one absent file. -/
theorem c6_artifact_check_witness :
    artifactLine "config.ini" (sampleArtifactFS.artifactSize "config.ini") =
      presentLine "config.ini" 1234567 ∧
    artifactLine "ip-checker-debug.exe"
        (sampleArtifactFS.artifactSize "ip-checker-debug.exe") =
      absentLine "ip-checker-debug.exe" ∧
    presentLine "config.ini" 1234567 = "✅ config.ini: 存在 (1,234,567 字节)" :=
  ⟨(c6_artifact_check sampleArtifactFS).2.2.1 "config.ini" 1234567 (by decide),
   (c6_artifact_check sampleArtifactFS).2.2.2.1 "ip-checker-debug.exe" (by decide),
   by decide⟩

/-- C7: the run's output is a deterministic function of the filesystem
state it reads, and running it twice in sequence (the second run seeing
the state the first run left) produces identical textual output. -/
theorem c7_deterministic (fs : FSState) :
    (diagnose_issues (diagnose_issues fs).1).2 = (diagnose_issues fs).2 ∧
    (∀ fs' : FSState, fs' = fs → (diagnose_issues fs').2 = (diagnose_issues fs).2) := by
  constructor
  · rw [diagnose_state_eq]
  · intro fs' h
    rw [h]

/-- C7 witness: both parts at the empty filesystem state. -/
theorem c7_deterministic_witness :
    (diagnose_issues (diagnose_issues emptyFS).1).2 = (diagnose_issues emptyFS).2 ∧
    (diagnose_issues emptyFS).2 = (diagnose_issues emptyFS).2 :=
  ⟨(c7_deterministic emptyFS).1, (c7_deterministic emptyFS).2 emptyFS rfl⟩

/-- C8: the run never modifies the filesystem: the state after the run
equals the state before it. -/
theorem c8_read_only (fs : FSState) : (diagnose_issues fs).1 = fs :=
  diagnose_state_eq fs

/-- C9: every run ends with the same fixed remediation text — the three
numbered groups of static suggestions — whatever the earlier checks
found. -/
theorem c9_static_suggestions (fs : FSState) :
    ∃ p, (diagnose_issues fs).2 = p ++ suggestionLines ∧
      suggestionLines =
        ["\n=== 可能的问题和解决方案 ===",
         "1. 如果GeoIP数据库未加载:",
         "   - 检查 GeoLite2-Country.mmdb 文件是否损坏",
         "   - 尝试重新下载GeoIP数据库",
         "2. 如果住宅IP文件被删除:",
         "   - 检查写入权限",
         "   - 检查磁盘空间",
         "3. 如果国家信息为空:",
         "   - 检查IPDetails字段是否正确赋值",
         "   - 验证GeoIP数据库查询结果"] := by
  refine ⟨"=== IP检测工具问题诊断 ===\n" ::
    ((checkFilesStep fs).2 ++ (outputDirStep (checkFilesStep fs).1).2 ++
      (logStep (outputDirStep (checkFilesStep fs).1).1).2), ?_, rfl⟩
  simp [diagnose_issues, suggestionsStep, List.append_assoc]

/-- C10: every substring the analyze-log step displays — the up-to-3
matches of each of the five categories and the up-to-5 extracted IPs —
contains no newline character, although matching runs over the whole file
content as one string. -/
theorem c10_no_newline (content : List Char) :
    (∀ name r, (name, r) ∈ logPatterns →
      ∀ m ∈ (findall r content).take 3, ∀ ch ∈ m, ch ≠ '\n') ∧
    (∀ ip ∈ (findall residentialIpRegex content).take 5, ∀ ch ∈ ip, ch ≠ '\n') := by
  constructor
  · intro name r hmem m hm
    have hr : r.noNewline = true := by
      simp [logPatterns] at hmem
      rcases hmem with ⟨_, h⟩ | ⟨_, h⟩ | ⟨_, h⟩ | ⟨_, h⟩ | ⟨_, h⟩ <;> subst h <;> decide
    exact findall_noNewline hr (List.mem_of_mem_take hm)
  · intro ip hip
    exact findall_noNewline (by decide) (List.mem_of_mem_take hip)

/-- C10 witness: a displayed match of the written pattern on a concrete
log has no newline. -/
theorem c10_no_newline_witness :
    ("文件写入", writtenRegex) ∈ logPatterns ∧
    markedWrittenText.data ∈ (findall writtenRegex markedWrittenText.data).take 3 ∧
    (∀ ch ∈ markedWrittenText.data, ch ≠ '\n') :=
  ⟨by decide, by decide,
   (c10_no_newline markedWrittenText.data).1 "文件写入" writtenRegex (by decide)
     markedWrittenText.data (by decide)⟩
